import Mathlib

set_option maxHeartbeats 1000000
set_option maxRecDepth 4000

/-!
Shallow embedding of `src/Multithreading/ThreadSynchronization.cpp`:
the `MyPrinter` class (a multi-threaded round-robin chunk printer built on a
mutex and a condition variable) together with its driver `main`.

Pure parts of the source (the chunked read in `print_chars`, the cursor and
turn-index arithmetic, the constructor, `getCurrentThreadId`, registration in
`run`, `atoi`-based argument parsing in `main`) become Lean functions.
The concurrent worker loop `print_thread` becomes a small-step transition
system whose states carry the scheduler fields (registration count, allowed
thread, cursor) and a program counter per worker; mutex acquisition and the
condition-variable predicate are the enabling conditions of its transitions.
Machine integers are modelled as `Nat` (all values reached in the modelled
runs are nonnegative) except in the raw constructor / `main` model, where
`Int` mirrors the C `int` results of `atoi`.
-/

/-! ## Cursor and turn-index arithmetic -/

/-- Lines 136-137 of `print_thread`:
`if (next_char >= str.length()) next_char -= str.length();` —
a single conditional subtraction, not a general `mod`. -/
def wrapNextChar (L n : ℕ) : ℕ := if L ≤ n then n - L else n

/-- Lines 131-133 of `print_thread`:
`allowed_thread++; if (allowed_thread == thread_count) allowed_thread = 0;` -/
def advanceAllowed (N a : ℕ) : ℕ := if a + 1 = N then 0 else a + 1

/-- Combined per-turn cursor update: `print_chars` (line 183) does
`next_char = next_char + char_count` and `print_thread` (lines 136-137) then
applies the single-subtraction wrap. -/
def cursorStep (L C v : ℕ) : ℕ := wrapNextChar L (v + C)

/-- Cursor value after `K` completed turns, starting from the constructor's
`next_char = 0` (line 46). -/
def cursorAfter (L C : ℕ) : ℕ → ℕ
  | 0 => 0
  | K + 1 => cursorStep L C (cursorAfter L C K)

/-! ## The chunked read of `print_chars` (lines 150-186) -/

/-- First loop of `print_chars` (lines 164-170):
`for (int i = next_char; i < str.length() && printcount < char_count; i++)`
reads `str[i]`.  The loop runs while `i < L` and fewer than `char_count`
characters have been printed; here `rem` counts the prints still permitted
(initially `char_count`), so the guard `printcount < char_count` becomes
`rem > 0`, made structural by counting down. -/
def firstLoopAux (L : ℕ) : ℕ → ℕ → List ℕ
  | _, 0 => []
  | i, rem + 1 => if i < L then i :: firstLoopAux L (i + 1) rem else []

/-- Indices read by the first loop of `print_chars`, starting at `next_char = v`
with chunk size `C` over a sequence of length `L`. -/
def firstLoopIdxs (L C v : ℕ) : List ℕ := firstLoopAux L v C

/-- Value of `printcount` after the first loop. -/
def printcountOf (L C v : ℕ) : ℕ := (firstLoopIdxs L C v).length

/-- Second loop of `print_chars` (lines 176-180):
`if (printcount < char_count) for (int i = 0; i < char_count - printcount; i++)`
reads `str[i]`. -/
def secondLoopIdxs (C pc : ℕ) : List ℕ :=
  if pc < C then List.range (C - pc) else []

/-- All indices at which `print_chars` reads the shared string during one turn,
in order. -/
def readIdxs (L C v : ℕ) : List ℕ :=
  firstLoopIdxs L C v ++ secondLoopIdxs C (printcountOf L C v)

/-- Characters emitted by one `print_chars` turn: `str[i]` at each read index.
An index at or beyond the string length (possible only when the single-wrap
logic overruns, see C4) has no defined character in the C++ string's content;
the model returns a space there. -/
def chunkOf (str : List Char) (C v : ℕ) : List Char :=
  (readIdxs str.length C v).map (fun i => str.getD i ' ')

/-! ## Sequential per-turn state of the `MyPrinter` object -/

/-- Fields of class `MyPrinter` (lines 19-34) touched by a turn, with the
machine `int` fields restricted to their nonnegative range as `Nat`
(`threads`, the mutex and the condition variable carry no turn-visible data;
`thread_id` is unused by the source). -/
structure MyPrinter where
  str : List Char
  char_count : ℕ
  thread_count : ℕ
  thread_ids : List ℕ
  allowed_thread : ℕ
  next_char : ℕ
deriving DecidableEq

/-- Line 183 of `print_chars`: `next_char = next_char + char_count`. -/
def MyPrinter.print_chars_next (p : MyPrinter) : MyPrinter :=
  { p with next_char := p.next_char + p.char_count }

/-- One complete turn of `print_thread` after `cv.wait` returns
(lines 128-137): run `print_chars`, advance `allowed_thread`
(lines 131-133), then wrap `next_char` (lines 136-137). -/
def MyPrinter.turn (p : MyPrinter) : MyPrinter :=
  let p1 := MyPrinter.print_chars_next p
  let p2 := { p1 with allowed_thread := advanceAllowed p1.thread_count p1.allowed_thread }
  { p2 with next_char := wrapNextChar p2.str.length p2.next_char }

/-! ## Registration (`run`, lines 67-88) and `getCurrentThreadId` (lines 54-62) -/

/-- Line 78 of `run`: `thread_ids.push_back(t.get_id())` — an unconditional
append, with no check against an identity already present. -/
def registerWorker (tbl : List ℕ) (id : ℕ) : List ℕ := tbl ++ [id]

/-- Loop of `getCurrentThreadId` (lines 55-61): scan `thread_ids` with a
counter, returning the counter at the first match and `-1` if absent. -/
def getCurrentThreadIdAux (id : ℕ) : List ℕ → ℕ → Int
  | [], _ => -1
  | e :: rest, tid => if e = id then (tid : Int) else getCurrentThreadIdAux id rest (tid + 1)

/-- `MyPrinter::getCurrentThreadId` (lines 54-62). -/
def getCurrentThreadId (tbl : List ℕ) (id : ℕ) : Int :=
  getCurrentThreadIdAux id tbl 0

/-! ## Raw constructor and driver `main` (lines 41-48 and 189-217) -/

/-- Raw field record built by the constructor `MyPrinter::MyPrinter`
(lines 41-48); the `int` fields keep their C type as `Int` since `main`
feeds them raw `atoi` results. -/
structure MyPrinterObj where
  str : String
  char_count : Int
  thread_count : Int
  thread_id : Int
  next_char : Int
  allowed_thread : Int
deriving DecidableEq

/-- Constructor body (lines 41-48): plain field assignments, with `thread_id`,
`next_char` and `allowed_thread` zeroed.  No validation of any argument. -/
def myPrinterCtor (s : String) (c_count t_count : Int) : MyPrinterObj :=
  { str := s, char_count := c_count, thread_count := t_count
    thread_id := 0, next_char := 0, allowed_thread := 0 }

/-- Number of threads spawned by `run` (lines 69-82):
`for (int i = 0; i < thread_count; i++)` starts one thread per iteration,
so a nonpositive `thread_count` spawns none. -/
def runThreadsSpawned (p : MyPrinterObj) : ℕ := p.thread_count.toNat

/-- Characters C's `isspace` accepts in the initial-whitespace phase of
`atoi`. -/
def isSpaceChar (c : Char) : Bool :=
  c = ' ' || c = '\t' || c = '\n' || c = '\r' || c = '\x0B' || c = '\x0C'

/-- Digit-accumulation phase of C `atoi`: consume decimal digits greedily,
stopping at the first non-digit; with no leading digit the accumulator (0)
is returned unchanged. -/
def atoiDigits : List Char → ℕ → ℕ
  | [], acc => acc
  | c :: cs, acc =>
      if c.isDigit then atoiDigits cs (acc * 10 + (c.toNat - 48)) else acc

/-- Drop one optional leading sign character. -/
def stripSign : List Char → List Char
  | '-' :: rest => rest
  | '+' :: rest => rest
  | cs => cs

/-- Whether the (whitespace-stripped) input starts with a minus sign. -/
def isNegSign : List Char → Bool
  | '-' :: _ => true
  | _ => false

/-- Model of C `atoi` as used at lines 207-208: skip whitespace, read an
optional sign, accumulate decimal digits; an input with no digits yields 0.
(Overflow is undefined behaviour in C and not modelled.) -/
def atoi (s : String) : Int :=
  let cs := s.data.dropWhile isSpaceChar
  let mag : ℕ := atoiDigits (stripSign cs) 0
  if isNegSign cs then -(mag : Int) else (mag : Int)

/-- True when `atoi` finds no digit to consume: after whitespace and an
optional sign the input is empty or starts with a non-digit. -/
def hasNoLeadingDigit (s : String) : Bool :=
  match stripSign (s.data.dropWhile isSpaceChar) with
  | [] => true
  | c :: _ => !c.isDigit

/-- Observable outcome of a `main` invocation: its exit status (`none` when
the process never terminates because spawned workers loop forever),
whether the usage message was printed, and how many worker threads were
spawned. -/
structure MainResult where
  exitCode : Option Int
  usageShown : Bool
  threadsSpawned : ℕ
deriving DecidableEq

/-- Driver `main` (lines 189-217): with other than 3 user arguments, print
usage and return 1 (lines 198-203); otherwise build the printer from
`argv[1]`, `atoi(argv[2])`, `atoi(argv[3])` (lines 206-211) and call
`run()` (line 214).  Every spawned worker loops forever (line 108), so
`run`'s join loop — and hence `main` — returns (with 0) exactly when no
thread was spawned. -/
def mainModel (argv : List String) : MainResult :=
  match argv with
  | [_, s, cc, tc] =>
      let p := myPrinterCtor s (atoi cc) (atoi tc)
      let n := runThreadsSpawned p
      { exitCode := if n = 0 then some 0 else none
        usageShown := false, threadsSpawned := n }
  | _ => { exitCode := some 1, usageShown := true, threadsSpawned := 0 }

/-! ## Small-step transition system for the worker loop `print_thread`

Worker identities are modelled by their registration index: `run` (lines
69-82) pushes the `i`-th created thread's id as entry `i` of `thread_ids`,
so `thread_ids` with `r` registrations is `[0, ..., r-1]` and only its
length `regs` needs to be carried.  Each worker's position in its loop is a
program counter:

* `init` — before or inside `waitforallthreadinit` (line 111), also the
  point a worker returns to after finishing a turn (the `while(true)` loop,
  line 108);
* `ready` — past the barrier, before or inside `cv.wait` (lines 117-125),
  not holding the mutex (`cv.wait` releases it while blocked);
* `inCS` — `cv.wait` has returned with the mutex held and the predicate
  `this_thread::get_id() == thread_ids[allowed_thread]` true: the worker is
  executing the critical section (lines 128-140).

All `N` workers exist from the initial state (in the source each is spawned
just before its registration; a not-yet-spawned worker simply takes no
step, which the `init` state covers). -/

/-- Program counter of one worker inside `print_thread`. -/
inductive PC where
  | init
  | ready
  | inCS
deriving DecidableEq

/-- Global state of the modelled run: `regs` is `thread_ids.size()`,
`allowed` is `allowed_thread`, `cursor` is `next_char`, `pcs` the per-worker
program counters, and `log` the ghost list of workers whose turns have
completed, in order. -/
structure SchedState where
  regs : ℕ
  allowed : ℕ
  cursor : ℕ
  pcs : List PC
  log : List ℕ
deriving DecidableEq

/-- Initial state: nothing registered, `allowed_thread = 0` and
`next_char = 0` from the constructor (lines 46-47), every worker at the top
of its loop. -/
def initState (N : ℕ) : SchedState :=
  { regs := 0, allowed := 0, cursor := 0, pcs := List.replicate N PC.init, log := [] }

/-- One interleaved step of the system with `N` workers over a sequence of
length `L` and chunk size `C`. -/
inductive Step (N L C : ℕ) : SchedState → SchedState → Prop where
  /-- `run` (line 78) registers the next worker; the loop body runs exactly
  `thread_count` times. -/
  | register {s : SchedState} (h : s.regs < N) :
      Step N L C s { s with regs := s.regs + 1 }
  /-- `waitforallthreadinit` (lines 94-99) returns: its guard is
  `thread_count == thread_ids.size()`, so it returns only when `regs = N`. -/
  | passBarrier {s : SchedState} (w : ℕ) (hw : w < N)
      (hpc : s.pcs.getD w PC.init = PC.init) (hregs : s.regs = N) :
      Step N L C s { s with pcs := s.pcs.set w PC.ready }
  /-- `cv.wait` (lines 123-125) returns: the worker acquires the mutex (no
  other worker may be inside the critical section) with the wait predicate
  `this_thread::get_id() == thread_ids[allowed_thread]` true, which under the
  index model of identities says `w = allowed`. -/
  | enterCS {s : SchedState} (w : ℕ)
      (hpc : s.pcs.getD w PC.init = PC.ready)
      (hfree : PC.inCS ∉ s.pcs)
      (hall : w = s.allowed) :
      Step N L C s { s with pcs := s.pcs.set w PC.inCS }
  /-- The worker completes its turn (lines 128-144): `print_chars` advances
  `next_char` by `char_count` (line 183), `allowed_thread` is advanced
  (lines 131-133), `next_char` is wrapped (lines 136-137), the mutex is
  released and all waiters notified, and the worker loops back to the top. -/
  | exitCS {s : SchedState} (w : ℕ)
      (hpc : s.pcs.getD w PC.init = PC.inCS) :
      Step N L C s { s with pcs := s.pcs.set w PC.init
                          , allowed := advanceAllowed N s.allowed
                          , cursor := wrapNextChar L (s.cursor + C)
                          , log := s.log ++ [w] }

/-- States reachable from the initial state by interleaved steps. -/
def Reachable (N L C : ℕ) (s : SchedState) : Prop :=
  Relation.ReflTransGen (Step N L C) (initState N) s

/-- The RotationTable pattern repeated and truncated to `M` entries: entry
`k` is worker `k % N` (registration index `k % N`, since `thread_ids` lists
identities in registration order). -/
def RotTruncated (N M : ℕ) : List ℕ :=
  (List.range M).map (fun k => k % N)

/-- Inductive invariant of the transition system. -/
structure SchedInv (N : ℕ) (s : SchedState) : Prop where
  len_pcs : s.pcs.length = N
  regs_le : s.regs ≤ N
  started_full : ∀ w, s.pcs.getD w PC.init ≠ PC.init → s.regs = N
  mutex : ∀ w v, s.pcs.getD w PC.init = PC.inCS → s.pcs.getD v PC.init = PC.inCS → w = v
  cs_allowed : ∀ w, s.pcs.getD w PC.init = PC.inCS → w = s.allowed
  allowed_mod : s.allowed = s.log.length % N
  log_rot : ∀ k, (hk : k < s.log.length) → s.log.get ⟨k, hk⟩ = k % N

/-- A concrete two-worker run (`N = 2`, `L = 8`, `C = 3`) after three
completed turns: both workers registered and three turns taken, by workers
0, 1, 0. -/
def cexC1 : SchedState :=
  { regs := 2, allowed := 1, cursor := 1
    pcs := [PC.init, PC.init], log := [0, 1, 0] }

/-- A concrete one-worker run (`N = 1`, `L = 5`, `C = 2`) with the single
worker inside the critical section of its first turn. -/
def w1State : SchedState :=
  { regs := 1, allowed := 0, cursor := 0, pcs := [PC.inCS], log := [] }

/-- The `MyPrinter` state of the spec's concrete scenario — sequence
"ABCDEFGH", chunk size 3, two workers — right after both workers registered
(`thread_ids = [0, 1]`) and before the first turn. -/
def demoPrinter : MyPrinter :=
  { str := "ABCDEFGH".toList, char_count := 3, thread_count := 2
    thread_ids := [0, 1], allowed_thread := 0, next_char := 0 }

/-! ## Helper lemmas -/

theorem list_getD_set_self {α : Type} (l : List α) (w : ℕ) (x d : α)
    (h : w < l.length) : (l.set w x).getD w d = x := by
  rw [List.getD_eq_getElem _ _ (by simpa using h)]
  simp

theorem list_getD_set_ne {α : Type} (l : List α) (w v : ℕ) (x d : α)
    (h : v ≠ w) : (l.set w x).getD v d = l.getD v d := by
  by_cases hv : v < l.length
  · rw [List.getD_eq_getElem _ _ (by simpa using hv), List.getD_eq_getElem _ _ hv]
    exact List.getElem_set_ne (Ne.symm h) _
  · rw [List.getD_eq_default _ _ (by simp; omega), List.getD_eq_default _ _ (by omega)]

theorem list_getD_lt {α : Type} (l : List α) (v : ℕ) (d : α)
    (h : l.getD v d ≠ d) : v < l.length := by
  by_contra hc
  exact h (List.getD_eq_default _ _ (by omega))

theorem list_getD_mem {α : Type} (l : List α) (v : ℕ) (d : α)
    (h : v < l.length) : l.getD v d ∈ l := by
  rw [List.getD_eq_getElem _ _ h]
  exact List.getElem_mem h

theorem no_inCS_getD {l : List PC} (h : PC.inCS ∉ l) (v : ℕ) :
    l.getD v PC.init ≠ PC.inCS := by
  intro hc
  have hlt : v < l.length := list_getD_lt l v PC.init (by rw [hc]; decide)
  exact h (hc ▸ list_getD_mem l v PC.init hlt)

theorem list_getD_replicate (N v : ℕ) (x : PC) :
    (List.replicate N x).getD v x = x := by
  by_cases h : v < N
  · rw [List.getD_eq_getElem _ _ (by simpa using h)]
    simp
  · exact List.getD_eq_default _ _ (by simp; omega)

theorem advanceAllowed_mod (N a : ℕ) (ha : a < N) :
    advanceAllowed N a = (a + 1) % N := by
  unfold advanceAllowed
  by_cases h : a + 1 = N
  · rw [if_pos h, h, Nat.mod_self]
  · rw [if_neg h, Nat.mod_eq_of_lt (by omega)]

/-! ## The inductive invariant of the worker-loop transition system -/

theorem schedInv_init (N : ℕ) : SchedInv N (initState N) := by
  refine ⟨by simp [initState], Nat.zero_le N, ?_, ?_, ?_, ?_, ?_⟩
  · intro w hw
    exact absurd (list_getD_replicate N w PC.init) hw
  · intro w v hw _
    rw [show (initState N).pcs = List.replicate N PC.init from rfl,
      list_getD_replicate] at hw
    exact absurd hw (by decide)
  · intro w hw
    rw [show (initState N).pcs = List.replicate N PC.init from rfl,
      list_getD_replicate] at hw
    exact absurd hw (by decide)
  · exact (Nat.zero_mod N).symm
  · intro k hk
    simp [initState] at hk

theorem schedInv_step {N L C : ℕ} {s t : SchedState}
    (hinv : SchedInv N s) (hstep : Step N L C s t) : SchedInv N t := by
  cases hstep with
  | register h =>
      refine ⟨hinv.len_pcs, h, ?_, hinv.mutex, hinv.cs_allowed,
        hinv.allowed_mod, hinv.log_rot⟩
      intro w hw
      exact absurd (hinv.started_full w hw) (Nat.ne_of_lt h)
  | passBarrier w hw hpc hregs =>
      have hwlen : w < s.pcs.length := by rw [hinv.len_pcs]; exact hw
      refine ⟨by simp [hinv.len_pcs], hinv.regs_le, ?_, ?_, ?_,
        hinv.allowed_mod, hinv.log_rot⟩
      · intro v _
        exact hregs
      · intro a b ha hb
        by_cases haw : a = w
        · subst haw
          rw [list_getD_set_self _ _ _ _ hwlen] at ha
          exact absurd ha (by decide)
        · rw [list_getD_set_ne _ _ _ _ _ haw] at ha
          by_cases hbw : b = w
          · subst hbw
            rw [list_getD_set_self _ _ _ _ hwlen] at hb
            exact absurd hb (by decide)
          · rw [list_getD_set_ne _ _ _ _ _ hbw] at hb
            exact hinv.mutex a b ha hb
      · intro a ha
        by_cases haw : a = w
        · subst haw
          rw [list_getD_set_self _ _ _ _ hwlen] at ha
          exact absurd ha (by decide)
        · rw [list_getD_set_ne _ _ _ _ _ haw] at ha
          exact hinv.cs_allowed a ha
  | enterCS w hpc hfree hall =>
      have hwlen : w < s.pcs.length := list_getD_lt _ _ _ (by rw [hpc]; decide)
      have hfull : s.regs = N := hinv.started_full w (by rw [hpc]; decide)
      refine ⟨by simp [hinv.len_pcs], hinv.regs_le, ?_, ?_, ?_,
        hinv.allowed_mod, hinv.log_rot⟩
      · intro v _
        exact hfull
      · intro a b ha hb
        by_cases haw : a = w
        · by_cases hbw : b = w
          · rw [haw, hbw]
          · rw [list_getD_set_ne _ _ _ _ _ hbw] at hb
            exact absurd hb (no_inCS_getD hfree b)
        · rw [list_getD_set_ne _ _ _ _ _ haw] at ha
          exact absurd ha (no_inCS_getD hfree a)
      · intro a ha
        by_cases haw : a = w
        · subst haw
          exact hall
        · rw [list_getD_set_ne _ _ _ _ _ haw] at ha
          exact absurd ha (no_inCS_getD hfree a)
  | exitCS w hpc =>
      have hwlen : w < s.pcs.length := list_getD_lt _ _ _ (by rw [hpc]; decide)
      have hN : 0 < N := by rw [← hinv.len_pcs]; omega
      have hwa : w = s.allowed := hinv.cs_allowed w hpc
      have hfull : s.regs = N := hinv.started_full w (by rw [hpc]; decide)
      refine ⟨by simp [hinv.len_pcs], hinv.regs_le, ?_, ?_, ?_, ?_, ?_⟩
      · intro v _
        exact hfull
      · intro a b ha hb
        by_cases haw : a = w
        · subst haw
          rw [list_getD_set_self _ _ _ _ hwlen] at ha
          exact absurd ha (by decide)
        · rw [list_getD_set_ne _ _ _ _ _ haw] at ha
          exact absurd (hinv.mutex a w ha hpc) haw
      · intro a ha
        by_cases haw : a = w
        · subst haw
          rw [list_getD_set_self _ _ _ _ hwlen] at ha
          exact absurd ha (by decide)
        · rw [list_getD_set_ne _ _ _ _ _ haw] at ha
          exact absurd (hinv.mutex a w ha hpc) haw
      · show advanceAllowed N s.allowed = (s.log ++ [w]).length % N
        rw [hinv.allowed_mod, advanceAllowed_mod _ _ (Nat.mod_lt _ hN)]
        simp [List.length_append]
      · intro k hk
        have hklen : k < s.log.length + 1 := by simpa using hk
        by_cases hkl : k < s.log.length
        · have hres := hinv.log_rot k hkl
          show (s.log ++ [w])[k] = k % N
          rw [List.getElem_append_left hkl]
          exact hres
        · have hke : k = s.log.length := by omega
          subst hke
          show (s.log ++ [w])[s.log.length] = s.log.length % N
          simp only [List.getElem_concat_length]
          rw [hwa, hinv.allowed_mod]

theorem reach_schedInv {N L C : ℕ} {s : SchedState}
    (h : Reachable N L C s) : SchedInv N s := by
  unfold Reachable at h
  induction h with
  | refl => exact schedInv_init N
  | tail _ hstep ih => exact schedInv_step ih hstep

/-! ## Concrete reachable runs -/

theorem reach_w1State : Reachable 1 5 2 w1State := by
  have h0 : Reachable 1 5 2 (initState 1) := Relation.ReflTransGen.refl
  have h1 : Reachable 1 5 2 ⟨1, 0, 0, [PC.init], []⟩ :=
    h0.tail (Step.register (by decide))
  have h2 : Reachable 1 5 2 ⟨1, 0, 0, [PC.ready], []⟩ :=
    h1.tail (Step.passBarrier 0 (by decide) (by decide) (by decide))
  exact h2.tail (Step.enterCS 0 (by decide) (by decide) (by decide))

theorem reach_cexC1 : Reachable 2 8 3 cexC1 := by
  have h0 : Reachable 2 8 3 (initState 2) := Relation.ReflTransGen.refl
  have h1 : Reachable 2 8 3 ⟨1, 0, 0, [PC.init, PC.init], []⟩ :=
    h0.tail (Step.register (by decide))
  have h2 : Reachable 2 8 3 ⟨2, 0, 0, [PC.init, PC.init], []⟩ :=
    h1.tail (Step.register (by decide))
  have h3 : Reachable 2 8 3 ⟨2, 0, 0, [PC.ready, PC.init], []⟩ :=
    h2.tail (Step.passBarrier 0 (by decide) (by decide) (by decide))
  have h4 : Reachable 2 8 3 ⟨2, 0, 0, [PC.ready, PC.ready], []⟩ :=
    h3.tail (Step.passBarrier 1 (by decide) (by decide) (by decide))
  have h5 : Reachable 2 8 3 ⟨2, 0, 0, [PC.inCS, PC.ready], []⟩ :=
    h4.tail (Step.enterCS 0 (by decide) (by decide) (by decide))
  have h6 : Reachable 2 8 3 ⟨2, 1, 3, [PC.init, PC.ready], [0]⟩ :=
    h5.tail (Step.exitCS 0 (by decide))
  have h7 : Reachable 2 8 3 ⟨2, 1, 3, [PC.init, PC.inCS], [0]⟩ :=
    h6.tail (Step.enterCS 1 (by decide) (by decide) (by decide))
  have h8 : Reachable 2 8 3 ⟨2, 0, 6, [PC.init, PC.init], [0, 1]⟩ :=
    h7.tail (Step.exitCS 1 (by decide))
  have h9 : Reachable 2 8 3 ⟨2, 0, 6, [PC.ready, PC.init], [0, 1]⟩ :=
    h8.tail (Step.passBarrier 0 (by decide) (by decide) (by decide))
  have h10 : Reachable 2 8 3 ⟨2, 0, 6, [PC.inCS, PC.init], [0, 1]⟩ :=
    h9.tail (Step.enterCS 0 (by decide) (by decide) (by decide))
  exact h10.tail (Step.exitCS 0 (by decide))

/-! ## Claim theorems -/

/-- C1 counterexample: in a reachable two-worker run whose completed turns are
[0, 1, 0], the window of M = 2 ≥ N = 2 consecutive turns starting at turn 1
has actors [1, 0], which is not the RotationTable repeated and truncated to 2
(that is [0, 1]): the claim's "any M ≥ N consecutive turns" fails for windows
not aligned to a cycle boundary. -/
theorem C1_counterexample :
    Reachable 2 8 3 cexC1 ∧ 2 ≤ cexC1.log.length ∧
    (cexC1.log.drop 1).take 2 ≠ RotTruncated 2 2 :=
  ⟨reach_cexC1, by decide, by decide⟩

/-- C1 (amended): in every reachable state the turn index `allowed_thread`
equals the number of completed turns modulo N — each completed turn advances
it by exactly 1 modulo N — and consequently the sequence of acting workers of
the first M completed turns (any M up to the total) equals the RotationTable
repeated and truncated to M; a window of consecutive turns starting mid-cycle
is the corresponding cyclic rotation of that pattern instead. -/
theorem C1_strict_rotation (N L C : ℕ) (s : SchedState) (h : Reachable N L C s)
    (M : ℕ) (hM : M ≤ s.log.length) :
    s.allowed = s.log.length % N ∧ s.log.take M = RotTruncated N M := by
  have hinv := reach_schedInv h
  refine ⟨hinv.allowed_mod, ?_⟩
  apply List.ext_getElem
  · simp [RotTruncated, List.length_take]
    omega
  · intro i h1 h2
    have hilen : i < s.log.length := by
      simp [List.length_take] at h1
      omega
    simp only [RotTruncated, List.getElem_take, List.getElem_map, List.getElem_range]
    exact hinv.log_rot i hilen

/-- Witness for C1_strict_rotation at the concrete two-worker run `cexC1`. -/
theorem C1_strict_rotation_witness :
    cexC1.allowed = cexC1.log.length % 2 ∧ cexC1.log.take 2 = RotTruncated 2 2 :=
  C1_strict_rotation 2 8 3 cexC1 reach_cexC1 2 (by decide)

/-- C5: mutual exclusion — in every reachable state of every configuration, at
most one worker is inside the critical section (the chunked read, cursor
advance and turn-index advance): any two workers there are equal.  Since a
turn's critical section is exactly the span in state `inCS`, critical sections
of turns taken by different workers never overlap. -/
theorem C5_mutual_exclusion (N L C : ℕ) (s : SchedState) (h : Reachable N L C s)
    (w v : ℕ) (hw : s.pcs.getD w PC.init = PC.inCS)
    (hv : s.pcs.getD v PC.init = PC.inCS) : w = v :=
  (reach_schedInv h).mutex w v hw hv

/-- Witness for C5_mutual_exclusion at a reachable state with worker 0 inside
the critical section. -/
theorem C5_mutual_exclusion_witness :
    w1State.pcs.getD 0 PC.init = PC.inCS ∧ (0 : ℕ) = 0 :=
  ⟨by decide, C5_mutual_exclusion 1 5 2 w1State reach_w1State 0 0 (by decide) (by decide)⟩

/-- C6: barrier correctness — in every reachable state, a worker that has
passed `waitforallthreadinit` (its program counter left `init`: it is past the
barrier or inside the critical section taking a turn) implies `thread_ids`
holds exactly N entries, because the barrier's guard is
`thread_count == thread_ids.size()` and registration stops at N. -/
theorem C6_barrier_gates_turns (N L C : ℕ) (s : SchedState) (h : Reachable N L C s)
    (w : ℕ) (hw : s.pcs.getD w PC.init ≠ PC.init) : s.regs = N :=
  (reach_schedInv h).started_full w hw

/-- Witness for C6_barrier_gates_turns at a reachable one-worker state whose
worker is inside the critical section. -/
theorem C6_barrier_gates_turns_witness :
    w1State.pcs.getD 0 PC.init ≠ PC.init ∧ w1State.regs = 1 :=
  ⟨by decide, C6_barrier_gates_turns 1 5 2 w1State reach_w1State 0 (by decide)⟩

/-- C2 counterexample: with sequence length L = 1 and chunk size C = 2 (both
satisfying the claim's L ≥ 1, C ≥ 1), the first completed turn moves the
cursor from 0 to 1, not to (0 + 2) mod 1 = 0, and leaves it outside [0, 1):
the single conditional subtraction of lines 136-137 wraps only once. -/
theorem C2_counterexample :
    (MyPrinter.turn ⟨['A'], 2, 1, [0], 0, 0⟩).next_char ≠ (0 + 2) % 1 ∧
    ¬ (MyPrinter.turn ⟨['A'], 2, 1, [0], 0, 0⟩).next_char < 1 := by decide

/-- C2 (amended): provided additionally that C ≤ L, each completed turn
advances the cursor from v ∈ [0, L) to (v + C) mod L — both in the per-turn
state update `MyPrinter.turn` and as the cursor-arithmetic function
`cursorStep` — and after K turns from cursor 0 the cursor is (K·C) mod L,
always inside [0, L).  For C > L the single-subtraction wrap can instead
leave the cursor at or beyond L. -/
theorem C2_cursor_modular (L C v K : ℕ) (p : MyPrinter)
    (hC : 1 ≤ C) (hCL : C ≤ L) (hv : v < L)
    (hstr : p.str.length = L) (hcc : p.char_count = C) (hnc : p.next_char = v) :
    (MyPrinter.turn p).next_char = (v + C) % L ∧
    cursorStep L C v = (v + C) % L ∧
    cursorAfter L C K = K * C % L ∧ cursorAfter L C K < L := by
  have hL : 0 < L := by omega
  have hstep : ∀ u, u < L → cursorStep L C u = (u + C) % L := by
    intro u hu
    unfold cursorStep wrapNextChar
    by_cases h : L ≤ u + C
    · rw [if_pos h, Nat.mod_eq_sub_mod h, Nat.mod_eq_of_lt (by omega)]
    · rw [if_neg h, Nat.mod_eq_of_lt (by omega)]
  have hiter : ∀ n, cursorAfter L C n = n * C % L := by
    intro n
    induction n with
    | zero => simp [cursorAfter]
    | succ m ih =>
        have : cursorAfter L C (m + 1) = cursorStep L C (m * C % L) := by
          rw [show cursorAfter L C (m + 1) = cursorStep L C (cursorAfter L C m) from rfl, ih]
        rw [this, hstep _ (Nat.mod_lt _ hL), Nat.mod_add_mod]
        ring_nf
  refine ⟨?_, hstep v hv, hiter K, hiter K ▸ Nat.mod_lt _ hL⟩
  show wrapNextChar p.str.length (p.next_char + p.char_count) = (v + C) % L
  rw [hstr, hcc, hnc]
  exact hstep v hv

/-- Witness for C2_cursor_modular on the "ABCDEFGH" scenario with cursor 6
(the wrapping turn) and K = 3 turns. -/
theorem C2_cursor_modular_witness :
    (MyPrinter.turn ⟨"ABCDEFGH".toList, 3, 2, [0, 1], 0, 6⟩).next_char = (6 + 3) % 8 ∧
    cursorStep 8 3 6 = (6 + 3) % 8 ∧
    cursorAfter 8 3 3 = 3 * 3 % 8 ∧ cursorAfter 8 3 3 < 8 :=
  C2_cursor_modular 8 3 6 3 ⟨"ABCDEFGH".toList, 3, 2, [0, 1], 0, 6⟩
    (by decide) (by decide) (by decide) (by decide) (by decide) (by decide)

/-- C3: on sharedSequence "ABCDEFGH" (L = 8), chunkSize 3, 2 workers, the
first four turns emit "ABC", "DEF", "GHA", "BCD", taken by workers 0, 1, 0, 1
(the `allowed_thread` values before each turn), with the cursor moving
0 → 3 → 6 → 1 (wrapping) → 4. -/
theorem C3_first_four_turns :
    (demoPrinter.allowed_thread = 0 ∧ demoPrinter.next_char = 0 ∧
      chunkOf demoPrinter.str demoPrinter.char_count demoPrinter.next_char
        = ['A', 'B', 'C'] ∧
      (MyPrinter.turn demoPrinter).next_char = 3) ∧
    ((MyPrinter.turn demoPrinter).allowed_thread = 1 ∧
      chunkOf (MyPrinter.turn demoPrinter).str
        (MyPrinter.turn demoPrinter).char_count
        (MyPrinter.turn demoPrinter).next_char = ['D', 'E', 'F'] ∧
      (MyPrinter.turn (MyPrinter.turn demoPrinter)).next_char = 6) ∧
    ((MyPrinter.turn (MyPrinter.turn demoPrinter)).allowed_thread = 0 ∧
      chunkOf (MyPrinter.turn (MyPrinter.turn demoPrinter)).str
        (MyPrinter.turn (MyPrinter.turn demoPrinter)).char_count
        (MyPrinter.turn (MyPrinter.turn demoPrinter)).next_char
        = ['G', 'H', 'A'] ∧
      (MyPrinter.turn (MyPrinter.turn (MyPrinter.turn demoPrinter))).next_char = 1) ∧
    ((MyPrinter.turn (MyPrinter.turn (MyPrinter.turn demoPrinter))).allowed_thread = 1 ∧
      chunkOf (MyPrinter.turn (MyPrinter.turn (MyPrinter.turn demoPrinter))).str
        (MyPrinter.turn (MyPrinter.turn (MyPrinter.turn demoPrinter))).char_count
        (MyPrinter.turn (MyPrinter.turn (MyPrinter.turn demoPrinter))).next_char
        = ['B', 'C', 'D'] ∧
      (MyPrinter.turn (MyPrinter.turn (MyPrinter.turn
        (MyPrinter.turn demoPrinter)))).next_char = 4) := by decide

/-- C4 counterexample: with sequence length 1 and chunk size 3, the very
first turn's read indices include 1, which is outside [0, 1): the read logic
of lines 164-180 wraps only once, so for chunkSize ≥ len it can index past
the end of the string. -/
theorem C4_counterexample : 1 ∈ readIdxs 1 3 0 ∧ ¬ 1 < 1 := by decide

/-- C4 (amended): provided additionally that chunkSize ≤ len, every index
used to read the shared sequence during a turn's chunked read (both loops of
`print_chars`) lies in [0, len) whenever the turn starts with the cursor in
[0, len); for chunkSize > len the single-wrap logic can read out of
bounds. -/
theorem C4_read_in_bounds (L C v i : ℕ) (hC : 1 ≤ C) (hCL : C ≤ L) (hv : v < L)
    (hi : i ∈ readIdxs L C v) : i < L := by
  have hfirst : ∀ rem j k, k ∈ firstLoopAux L j rem → k < L := by
    intro rem
    induction rem with
    | zero => intro j k hk; simp [firstLoopAux] at hk
    | succ r ih =>
        intro j k hk
        by_cases hj : j < L
        · rw [show firstLoopAux L j (r + 1)
              = if j < L then j :: firstLoopAux L (j + 1) r else [] from rfl,
            if_pos hj] at hk
          rcases List.mem_cons.mp hk with rfl | hk2
          · exact hj
          · exact ih (j + 1) k hk2
        · rw [show firstLoopAux L j (r + 1)
              = if j < L then j :: firstLoopAux L (j + 1) r else [] from rfl,
            if_neg hj] at hk
          simp at hk
  have hlen : ∀ rem j, (firstLoopAux L j rem).length = min rem (L - j) := by
    intro rem
    induction rem with
    | zero => intro j; simp [firstLoopAux]
    | succ r ih =>
        intro j
        by_cases hj : j < L
        · rw [show firstLoopAux L j (r + 1)
              = if j < L then j :: firstLoopAux L (j + 1) r else [] from rfl,
            if_pos hj]
          simp [ih (j + 1)]
          omega
        · rw [show firstLoopAux L j (r + 1)
              = if j < L then j :: firstLoopAux L (j + 1) r else [] from rfl,
            if_neg hj]
          simp
          omega
  rcases List.mem_append.mp hi with h1 | h2
  · exact hfirst C v i h1
  · unfold secondLoopIdxs printcountOf firstLoopIdxs at h2
    rw [hlen C v] at h2
    by_cases hp : min C (L - v) < C
    · rw [if_pos hp] at h2
      have := List.mem_range.mp h2
      omega
    · rw [if_neg hp] at h2
      simp at h2

/-- Witness for C4_read_in_bounds on the wrapping turn of the "ABCDEFGH"
scenario: index 6 is among the indices read at cursor 6 with chunk size 3,
and it is within bounds. -/
theorem C4_read_in_bounds_witness : 6 ∈ readIdxs 8 3 6 ∧ 6 < 8 :=
  ⟨by decide, C4_read_in_bounds 8 3 6 6 (by decide) (by decide) (by decide) (by decide)⟩

/-- C7: the failing input.  The constructor body (lines 41-48) is plain field
assignment, so an entirely invalid configuration — empty sequence, chunk size
0 and worker count 0 — constructs a `MyPrinter` object with no error of any
kind; `main` on these arguments then spawns no thread and exits with status 0,
never reporting a ConfigurationError. -/
theorem C7_no_config_validation :
    myPrinterCtor "" 0 0 =
      { str := "", char_count := 0, thread_count := 0
        thread_id := 0, next_char := 0, allowed_thread := 0 } ∧
    mainModel ["prog", "", "0", "0"] =
      { exitCode := some 0, usageShown := false, threadsSpawned := 0 } := by
  decide

/-- C8 counterexample: registering the identity 7 a second time produces the
table [7, 7] — the duplicate is appended, not rejected (there is no
DoubleRegistrationError anywhere in the code), and the length grows to 2
where a rejecting scheduler would have kept it at 1. -/
theorem C8_counterexample :
    registerWorker (registerWorker [] 7) 7 ≠ [7] ∧
    registerWorker (registerWorker [] 7) 7 = [7, 7] := by decide

/-- C8 (amended): registration (`thread_ids.push_back`, line 78) is an
unconditional append: registering the same identity a second time appends a
duplicate entry, growing RotationTable by one per registration, and
`getCurrentThreadId` then resolves the duplicated identity to its first
occurrence (index `tbl.length` when the identity was fresh), leaving the
second entry unreachable by identity lookup. -/
theorem C8_double_registration_appended (tbl : List ℕ) (id : ℕ) (h : id ∉ tbl) :
    (registerWorker (registerWorker tbl id) id).length = tbl.length + 2 ∧
    getCurrentThreadId (registerWorker (registerWorker tbl id) id) id
      = (tbl.length : Int) := by
  have haux : ∀ (t : List ℕ), id ∉ t → ∀ k rest,
      getCurrentThreadIdAux id (t ++ id :: rest) k = ((k + t.length : ℕ) : Int) := by
    intro t
    induction t with
    | nil => intro _ k rest; simp [getCurrentThreadIdAux]
    | cons e es ih =>
        intro hmem k rest
        have hne : ¬ (e = id) := fun he => hmem (by simp [he])
        have h2 : id ∉ es := fun hm => hmem (List.mem_cons_of_mem _ hm)
        rw [show (e :: es) ++ id :: rest = e :: (es ++ id :: rest) from rfl]
        rw [show getCurrentThreadIdAux id (e :: (es ++ id :: rest)) k
            = if e = id then (k : Int)
              else getCurrentThreadIdAux id (es ++ id :: rest) (k + 1) from rfl]
        rw [if_neg hne, ih h2 (k + 1) rest]
        rw [Int.natCast_inj]
        simp
        omega
  constructor
  · simp [registerWorker]
  · show getCurrentThreadIdAux id ((tbl ++ [id]) ++ [id]) 0 = (tbl.length : Int)
    rw [List.append_assoc]
    have := haux tbl h 0 [id]
    simpa using this

/-- Witness for C8_double_registration_appended: registering identity 7 twice
into an empty table. -/
theorem C8_double_registration_appended_witness :
    7 ∉ ([] : List ℕ) ∧
    ((registerWorker (registerWorker [] 7) 7).length = ([] : List ℕ).length + 2 ∧
      getCurrentThreadId (registerWorker (registerWorker [] 7) 7) 7
        = (([] : List ℕ).length : Int)) :=
  ⟨by decide, C8_double_registration_appended [] 7 (by decide)⟩

/-- C9: frame condition of a completed turn — one `print_thread` iteration
after the barrier (`MyPrinter.turn`) leaves the shared string, the chunk
size, the worker count, and the RotationTable (`thread_ids`, hence its length
and element order) unchanged; only `next_char` and `allowed_thread` are
mutated. -/
theorem C9_turn_frame (p : MyPrinter) :
    (MyPrinter.turn p).str = p.str ∧
    (MyPrinter.turn p).char_count = p.char_count ∧
    (MyPrinter.turn p).thread_count = p.thread_count ∧
    (MyPrinter.turn p).thread_ids = p.thread_ids :=
  ⟨rfl, rfl, rfl, rfl⟩

theorem atoi_eq_zero {s : String} (h : hasNoLeadingDigit s = true) : atoi s = 0 := by
  have hmag : atoiDigits (stripSign (s.data.dropWhile isSpaceChar)) 0 = 0 := by
    unfold hasNoLeadingDigit at h
    cases hcs : stripSign (s.data.dropWhile isSpaceChar) with
    | nil => rw [show atoiDigits [] 0 = 0 from rfl]
    | cons c rest =>
        rw [hcs] at h
        simp at h
        rw [show atoiDigits (c :: rest) 0
            = if c.isDigit then atoiDigits rest (0 * 10 + (c.toNat - 48)) else 0 from rfl]
        rw [if_neg (by simp [h])]
  show (if isNegSign (s.data.dropWhile isSpaceChar) = true
      then -((atoiDigits (stripSign (s.data.dropWhile isSpaceChar)) 0 : ℕ) : Int)
      else ((atoiDigits (stripSign (s.data.dropWhile isSpaceChar)) 0 : ℕ) : Int)) = 0
  rw [hmag]
  split <;> simp

/-- C10: a chunk-size or worker-count argument that is not a decimal numeral
is parsed by `atoi` as 0 (no digits means the zero accumulator is returned)
and `main` proceeds with no usage message or error of any kind: with worker
count 0, `run()` spawns no thread, its join loop is empty, and the process
exits with status 0; the chunk-size value (0 or otherwise) is accepted
silently and never influences the observable outcome. -/
theorem C10_nonnumeral_silently_zero (p s cc tc : String)
    (h : hasNoLeadingDigit tc = true) :
    atoi tc = 0 ∧
    mainModel [p, s, cc, tc] =
      { exitCode := some 0, usageShown := false, threadsSpawned := 0 } := by
  have h0 := atoi_eq_zero h
  refine ⟨h0, ?_⟩
  simp [mainModel, runThreadsSpawned, myPrinterCtor, h0]

/-- Witness for C10_nonnumeral_silently_zero at the concrete command line
`prog ABC abc xyz` (both counts non-numeral). -/
theorem C10_nonnumeral_silently_zero_witness :
    hasNoLeadingDigit "xyz" = true ∧
    (atoi "xyz" = 0 ∧
      mainModel ["prog", "ABC", "abc", "xyz"] =
        { exitCode := some 0, usageShown := false, threadsSpawned := 0 }) :=
  ⟨by decide, C10_nonnumeral_silently_zero "prog" "ABC" "abc" "xyz" (by decide)⟩
